import Mathlib

/-!
Verification of the business-crawler pipeline (main.py) against its specification.

Python strings are modelled through their code-point lists (`String.data` in Lean),
which matches Python's code-point indexing and slicing. Python collaborators
(DuckDuckGo search, trafilatura fetch/extract, BeautifulSoup paragraph scan, spaCy
entity tagging, the clock) are modelled as oracle functions supplied in an
environment record, following the spec's treatment of them as black boxes.
-/

namespace BusinessCrawler

/-- Number of words of a string in the sense of Python `len(s.split())`:
`split()` with no argument splits on runs of whitespace and drops empty pieces,
so this counts maximal non-whitespace runs. `inWord` records whether the previous
character was part of a word. -/
def wordCountAux : List Char → Bool → Nat
  | [], _ => 0
  | c :: cs, inWord =>
    if c.isWhitespace then wordCountAux cs false
    else (if inWord then 0 else 1) + wordCountAux cs true

/-- Python `len(s.split())`, the whitespace-delimited word count used by the
`min_words` gate in `scrape_content`. -/
def wordCount (s : String) : Nat := wordCountAux s.data false

/-- Membership in the regex character class `[a-zA-Z0-9_]` of `sanitize_filename`
(ASCII ranges, as Python `re` interprets them on these patterns). -/
def allowedChar (c : Char) : Bool :=
  (decide ('a' ≤ c) && decide (c ≤ 'z'))
    || (decide ('A' ≤ c) && decide (c ≤ 'Z'))
    || (decide ('0' ≤ c) && decide (c ≤ '9'))
    || (c == '_')

/-- The per-character action of `re.sub(r"[^a-zA-Z0-9_]", "_", name)`: a character
in the class is kept, any other single character becomes a single underscore. -/
def sanitizeChar (c : Char) : Char :=
  if allowedChar c then c else '_'

/-- Shallow embedding of `sanitize_filename` (main.py): `re.sub` with a
single-character pattern rewrites the string character by character. -/
def sanitize_filename (name : String) : String :=
  String.mk (name.data.map sanitizeChar)

/-- Fixed two-decimal rendering of the exact rational `num / den`, rounding half to
even. For `den` a power of two and `num` below 2^53 the Python float quotient
`num / den` is exact, and CPython's `f"{x:.2f}"` rounds that exact value half to
even, so this models the `f"{size_bytes / 1024:.2f}"` formatting in
`get_file_size_human_readable`. -/
def format2 (num den : Nat) : String :=
  let scaled := num * 100
  let q := scaled / den
  let r := scaled % den
  let rounded :=
    if den < 2 * r then q + 1
    else if 2 * r < den then q
    else if q % 2 = 0 then q else q + 1
  Nat.repr (rounded / 100) ++ "." ++
    (if rounded % 100 < 10 then "0" else "") ++ Nat.repr (rounded % 100)

/-- Shallow embedding of `get_file_size_human_readable` (main.py). The filesystem
state at the queried path is modelled by an `Option Nat`: `none` when
`os.path.exists` is false, `some b` when the file exists with `os.path.getsize`
returning `b`. -/
def get_file_size_human_readable (size : Option Nat) : String :=
  match size with
  | none => "N/A"
  | some b =>
    if b < 1024 then Nat.repr b ++ " B"
    else if b < 1024 * 1024 then format2 b 1024 ++ " KB"
    else format2 b (1024 * 1024) ++ " MB"

/-- Text of a non-empty-text paragraph list joined by newlines:
`"\n".join(...)` in `scrape_content`. -/
def joinNl : List String → String
  | [] => ""
  | [t] => t
  | t :: ts => t ++ "\n" ++ joinNl ts

/-- The fallback concatenation in `scrape_content`:
`"\n".join(p.get_text() for p in soup.find_all("p") if p.get_text())`, with
`paragraphs` the oracle for the text of the paragraph elements of the document. -/
def fallbackText (paragraphs : List String) : String :=
  joinNl (paragraphs.filter (fun t => !t.data.isEmpty))

/-- The acceptance test applied to a candidate text in `scrape_content`: Python
`if content and len(content.split()) >= min_words`, i.e. the text is non-empty
(truthy) and long enough. -/
def tryText (min_words : Nat) (t : String) : Option String :=
  if t.data.isEmpty = false ∧ min_words ≤ wordCount t then some t else none

/-- Shallow embedding of `scrape_content` (main.py). `fetched` is the value of
`fetch_url(url)` (`none` for a `None` return), `extractText d` the value of
`trafilatura.extract(d, favor_recall=True, include_comments=True)`, and
`paragraphs d` the text of the paragraph elements BeautifulSoup finds in `d`.
Python truthiness tests (`if downloaded`, `if content`, `if fallback_text`) are the
`isEmpty` checks. -/
def scrape_content (fetched : Option String) (extractText : String → Option String)
    (paragraphs : String → List String) (min_words : Nat) : Option String :=
  match fetched with
  | none => none
  | some downloaded =>
    if downloaded.data.isEmpty = true then none
    else
      match
        (match extractText downloaded with
         | some content => tryText min_words content
         | none => none)
      with
      | some content => some content
      | none => tryText min_words (fallbackText (paragraphs downloaded))

/-- The content extractor exactly as claim C1 words it: when fetch returns a
document, return the structured-extraction text whenever its word count reaches the
threshold; otherwise return the newline-joined non-empty paragraph texts whenever
that concatenation's word count reaches the threshold; in every other case return
nothing. This is the claim-side definition to be compared with `scrape_content`. -/
def scrape_content_claim (fetched : Option String) (extractText : String → Option String)
    (paragraphs : String → List String) (min_words : Nat) : Option String :=
  match fetched with
  | none => none
  | some downloaded =>
    match extractText downloaded with
    | some content =>
      if min_words ≤ wordCount content then some content
      else if min_words ≤ wordCount (fallbackText (paragraphs downloaded))
        then some (fallbackText (paragraphs downloaded)) else none
    | none =>
      if min_words ≤ wordCount (fallbackText (paragraphs downloaded))
        then some (fallbackText (paragraphs downloaded)) else none

/-- One search result as returned by the search collaborator: the fields
`href` and `title` that `main` reads from each DDGS result. -/
structure SearchResult where
  href : String
  title : String
deriving DecidableEq

/-- The record `main` assembles for one successfully scraped page. Entities are the
spaCy collaborator's category-to-surface-strings mapping, modelled as an
association list. -/
structure ScrapedRecord where
  topic : String
  title : String
  url : String
  domain : String
  snippet : String
  content : String
  scraped_at : String
  entities : List (String × List String)
  keywords : List String
deriving DecidableEq

/-- One domain's counters in `domain_stats`. -/
structure Stats where
  success : Nat
  fail : Nat
deriving DecidableEq

/-- The `domain_stats` defaultdict: an association list in key-insertion order,
which is how a Python dict iterates. Keys are unique (an invariant proved below). -/
abbrev DomainStats := List (String × Stats)

/-- Reading `domain_stats[d]` without writing: a missing key denotes the zeroed
counters the defaultdict would create. -/
def getStats : DomainStats → String → Stats
  | [], _ => ⟨0, 0⟩
  | p :: ds, d => if p.1 = d then p.2 else getStats ds d

/-- Whether the dict has an entry for `d`. -/
def hasDomain : DomainStats → String → Bool
  | [], _ => false
  | p :: ds, d => if p.1 = d then true else hasDomain ds d

/-- The write `domain_stats[d] = f(domain_stats[d])` (both `+= 1` updates have this
form): the defaultdict creates a zeroed entry at the end in insertion order when
`d` is absent, otherwise the existing entry is updated in place. -/
def bump (f : Stats → Stats) : DomainStats → String → DomainStats
  | [], d => [(d, f ⟨0, 0⟩)]
  | p :: ds, d => if p.1 = d then (p.1, f p.2) :: ds else p :: bump f ds d

/-- The update `domain_stats[domain]["success"] += 1`. -/
def bumpSuccess (ds : DomainStats) (d : String) : DomainStats :=
  bump (fun s => ⟨s.success + 1, s.fail⟩) ds d

/-- The update `domain_stats[domain]["fail"] += 1`. -/
def bumpFail (ds : DomainStats) (d : String) : DomainStats :=
  bump (fun s => ⟨s.success, s.fail + 1⟩) ds d

/-- The outcome of one search call in `main`, `.error` for a raised exception. -/
inductive SearchOutcome where
  | error : SearchOutcome
  | results : List SearchResult → SearchOutcome

/-- The oracle environment for a run of `main`: the external collaborators the spec
excludes from the core, plus the configured minimum word count. `netloc u` is
`urlparse(u).netloc`; `raises u` records whether an unexpected exception interrupts
the scraping of `u` (the `except Exception` arm of the per-result `try`). -/
structure Env where
  netloc : String → String
  fetch : String → Option String
  extractText : String → Option String
  paragraphs : String → List String
  raises : String → Bool
  entities : String → List (String × List String)
  now : String
  search : String → SearchOutcome
  minWords : Nat

/-- Replacement of newlines by spaces, the `.replace("\n", " ")` step of the
snippet computation. -/
def nlToSpace (c : Char) : Char := if c = '\n' then ' ' else c

/-- Python `str.strip()`: remove leading and trailing whitespace. -/
def pyStrip (l : List Char) : List Char :=
  ((l.dropWhile Char.isWhitespace).reverse.dropWhile Char.isWhitespace).reverse

/-- The snippet computed in `main`:
`content[:300].strip().replace("\n", " ") + "..."`. -/
def mkSnippet (content : String) : String :=
  String.mk ((pyStrip (content.data.take 300)).map nlToSpace) ++ "..."

/-- The snippet exactly as claim C4 words it: the first 300 characters of the
content with newlines replaced by spaces and `"..."` appended — without the
`.strip()` the code applies. This is the claim-side definition to be compared with
`mkSnippet`. -/
def snippetClaim (content : String) : String :=
  String.mk ((content.data.take 300).map nlToSpace) ++ "..."

/-- The dict `main` appends to `query_data` for a scraped page. -/
def mkRecord (env : Env) (query : String) (r : SearchResult) (content : String) :
    ScrapedRecord :=
  { topic := query
    title := r.title
    url := r.href
    domain := env.netloc r.href
    snippet := mkSnippet content
    content := content
    scraped_at := env.now
    entities := env.entities content
    keywords := [] }

/-- The per-query mutable state of `main`: `query_data`, `failed_urls` and the
(run-wide) `domain_stats`. -/
structure QueryState where
  queryData : List ScrapedRecord
  failedUrls : List String
  stats : DomainStats
deriving DecidableEq

/-- One iteration of the per-result loop in `main`: blacklist check first (a skip
is recorded as a failure), then `scrape_content` inside `try`, then record
assembly and a success count on truthy content, failure bookkeeping otherwise. -/
def processResult (env : Env) (blacklist : List String) (query : String)
    (st : QueryState) (r : SearchResult) : QueryState :=
  let url := r.href
  let domain := env.netloc url
  if blacklist.contains domain then
    { st with failedUrls := st.failedUrls ++ [url], stats := bumpFail st.stats domain }
  else if env.raises url then
    { st with failedUrls := st.failedUrls ++ [url], stats := bumpFail st.stats domain }
  else
    match scrape_content (env.fetch url) env.extractText env.paragraphs env.minWords with
    | some content =>
      if content.data.isEmpty then
        { st with failedUrls := st.failedUrls ++ [url], stats := bumpFail st.stats domain }
      else
        { st with queryData := st.queryData ++ [mkRecord env query r content]
                  stats := bumpSuccess st.stats domain }
    | none =>
      { st with failedUrls := st.failedUrls ++ [url], stats := bumpFail st.stats domain }

/-- One row of the domain summary table. -/
structure SummaryRow where
  domain : String
  successes : Nat
  failures : Nat
deriving DecidableEq

/-- The rows of `_domain_stats_summary.csv`:
`sorted(domain_stats.items(), key=lambda x: -x[1]["success"])`. Python `sorted` is
a stable sort, and sorting by the key `-successes` ascending is the stable sort by
the comparison `b.successes ≤ a.successes`; `List.mergeSort` is a stable sort, and
a stable sort is determined by its comparison, so this is the same list Python
produces. -/
def summaryRows (ds : DomainStats) : List SummaryRow :=
  (ds.mergeSort (fun a b => decide (b.2.success ≤ a.2.success))).map
    (fun p => { domain := p.1, successes := p.2.success, failures := p.2.fail })

/-- One attempted output write of the run, carrying the data written. -/
inductive WriteAction where
  | perQueryCsv : String → List ScrapedRecord → WriteAction
  | failedLog : String → List String → WriteAction
  | mergedCsv : List ScrapedRecord → WriteAction
  | mergedJson : List ScrapedRecord → WriteAction
  | domainSummary : List SummaryRow → WriteAction
deriving DecidableEq

/-- The run-wide state of `main`: `all_data`, `domain_stats` and the sequence of
attempted output writes. -/
structure RunState where
  allData : List ScrapedRecord
  domainStats : DomainStats
  writes : List WriteAction
deriving DecidableEq

/-- One iteration of the query loop in `main`: a search error or an empty result
list abandons the query (`continue`); otherwise the per-result loop runs, the
per-query CSV is written when any records exist, the failure log is written when
any URLs failed, and `all_data` is extended. -/
def processQuery (env : Env) (blacklist : List String) (st : RunState)
    (query : String) : RunState :=
  match env.search query with
  | .error => st
  | .results [] => st
  | .results rs =>
    let qs := rs.foldl (processResult env blacklist query)
        { queryData := [], failedUrls := [], stats := st.domainStats }
    { allData := st.allData ++ qs.queryData
      domainStats := qs.stats
      writes := st.writes
        ++ (if qs.queryData.isEmpty then [] else [.perQueryCsv query qs.queryData])
        ++ (if qs.failedUrls.isEmpty then [] else [.failedLog query qs.failedUrls]) }

/-- The whole of `main` after argument parsing: the query loop, the merged CSV and
JSON writes (only when any records exist), then the domain-summary write
(unconditionally). -/
def runMain (env : Env) (blacklist : List String) (queries : List String) : RunState :=
  let st := queries.foldl (processQuery env blacklist)
      { allData := [], domainStats := [], writes := [] }
  let st2 :=
    if st.allData.isEmpty then st
    else { st with writes := st.writes ++ [.mergedCsv st.allData, .mergedJson st.allData] }
  { st2 with writes := st2.writes ++ [.domainSummary (summaryRows st2.domainStats)] }

/-- The URLs of the results of one query, empty when the query is abandoned. -/
def urlsOfQuery (env : Env) (q : String) : List String :=
  match env.search q with
  | .error => []
  | .results [] => []
  | .results rs => rs.map (fun r => r.href)

/-- Every URL the run attempts, in processing order. -/
def attemptedUrls (env : Env) : List String → List String
  | [] => []
  | q :: qs => urlsOfQuery env q ++ attemptedUrls env qs

/-- A small concrete environment for instantiating the run-level theorems: one
query, one result, a five-word extraction against a threshold of three. -/
def envA : Env :=
  { netloc := fun _ => "d.com"
    fetch := fun _ => some "doc"
    extractText := fun _ => some "one two three four five"
    paragraphs := fun _ => []
    raises := fun _ => false
    entities := fun _ => []
    now := "T"
    search := fun _ => .results [{ href := "u1", title := "t1" }]
    minWords := 3 }

/-- Like `envA` but the extracted content carries a leading space, to exercise the
`strip` step of the snippet computation. -/
def envB : Env := { envA with extractText := fun _ => some " hello", minWords := 1 }

/-- Like `envA` but with two results on two distinct domains, both failing, so the
domain summary has a tie at zero successes. -/
def envC : Env :=
  { envA with
    netloc := fun u => u
    raises := fun _ => true
    search := fun _ => .results [{ href := "u1", title := "t" }, { href := "u2", title := "t" }] }

/-- Like `envA` but every search raises. -/
def envD : Env := { envA with search := fun _ => .error }

section Theorems

/-- Claim C5: `sanitize_filename` keeps the length of its input, its output consists
only of characters in `[A-Za-z0-9_]`, and it is the one-for-one replacement of each
character outside that class by a single underscore (no run-collapsing). Totality
and determinism hold because it is a Lean function. -/
theorem sanitize_filename_shape (s : String) :
    (sanitize_filename s).length = s.length
      ∧ (sanitize_filename s).data.all allowedChar = true
      ∧ (sanitize_filename s).data
          = s.data.map (fun c => if allowedChar c then c else '_') := by
  refine ⟨?_, ?_, rfl⟩
  · show (s.data.map sanitizeChar).length = s.data.length
    exact s.data.length_map sanitizeChar
  · show (s.data.map sanitizeChar).all allowedChar = true
    rw [List.all_map]
    refine List.all_eq_true.2 (fun c _ => ?_)
    show allowedChar (sanitizeChar c) = true
    unfold sanitizeChar
    by_cases h : allowedChar c = true
    · rw [if_pos h]; exact h
    · rw [if_neg h]; decide

/-- Claim C10: `sanitize_filename` is idempotent, because every character of its
output lies in the allowed class and is therefore left unchanged by a second
application. -/
theorem sanitize_filename_idem (s : String) :
    sanitize_filename (sanitize_filename s) = sanitize_filename s := by
  have hf : ∀ c, sanitizeChar (sanitizeChar c) = sanitizeChar c := by
    intro c
    unfold sanitizeChar
    by_cases h : allowedChar c = true
    · rw [if_pos h, if_pos h]
    · rw [if_neg h, if_pos (by decide : allowedChar '_' = true)]
  show String.mk ((s.data.map sanitizeChar).map sanitizeChar)
      = String.mk (s.data.map sanitizeChar)
  rw [List.map_map]
  exact congrArg String.mk (List.map_congr_left (fun c _ => hf c))

/-- Claim C6 fails on the code: `re.sub` replaces the ten adjacent punctuation
characters by ten underscores, it does not collapse them, so the result is not
`"file_with_special_chars"` (the expectation of `test_sanitize_filename`, which the
implementation contradicts). -/
theorem sanitize_filename_special_counterexample :
    sanitize_filename "file with!@#$%^&*()special chars" ≠ "file_with_special_chars" := by
  decide

/-- Claim C6 amended: on `"file with!@#$%^&*()special chars"` the function returns
`"file_with__________special_chars"`, each space and each of the ten punctuation
characters becoming its own underscore. -/
theorem sanitize_filename_special :
    sanitize_filename "file with!@#$%^&*()special chars"
      = "file_with__________special_chars" := by
  decide

/-- Claim C7: `get_file_size_human_readable` returns the sentinel `"N/A"` for a
missing path, renders byte counts below 1024 as an integer with suffix `" B"`,
renders counts below 1024^2 as the two-decimal rendering of `b / 1024` with suffix
`" KB"`, renders larger counts as the two-decimal rendering of `b / 1024^2` with
suffix `" MB"`, and in particular maps 0 to `"0 B"`, 500 to `"500 B"`, 1500 to
`"1.46 KB"` and 2 MiB to `"2.00 MB"`. -/
theorem get_file_size_human_readable_spec :
    get_file_size_human_readable none = "N/A"
      ∧ (∀ b : Nat, b < 1024 →
          get_file_size_human_readable (some b) = Nat.repr b ++ " B")
      ∧ (∀ b : Nat, 1024 ≤ b → b < 1024 * 1024 →
          get_file_size_human_readable (some b) = format2 b 1024 ++ " KB")
      ∧ (∀ b : Nat, 1024 * 1024 ≤ b →
          get_file_size_human_readable (some b) = format2 b (1024 * 1024) ++ " MB")
      ∧ get_file_size_human_readable (some 0) = "0 B"
      ∧ get_file_size_human_readable (some 500) = "500 B"
      ∧ get_file_size_human_readable (some 1500) = "1.46 KB"
      ∧ get_file_size_human_readable (some (2 * 1024 * 1024)) = "2.00 MB" := by
  refine ⟨rfl, ?_, ?_, ?_, by decide, by decide, by decide, by decide⟩
  · intro b hb
    show (if b < 1024 then Nat.repr b ++ " B"
        else if b < 1024 * 1024 then format2 b 1024 ++ " KB"
        else format2 b (1024 * 1024) ++ " MB") = Nat.repr b ++ " B"
    rw [if_pos hb]
  · intro b hb1 hb2
    show (if b < 1024 then Nat.repr b ++ " B"
        else if b < 1024 * 1024 then format2 b 1024 ++ " KB"
        else format2 b (1024 * 1024) ++ " MB") = format2 b 1024 ++ " KB"
    rw [if_neg (Nat.not_lt.2 hb1), if_pos hb2]
  · intro b hb
    show (if b < 1024 then Nat.repr b ++ " B"
        else if b < 1024 * 1024 then format2 b 1024 ++ " KB"
        else format2 b (1024 * 1024) ++ " MB") = format2 b (1024 * 1024) ++ " MB"
    rw [if_neg (Nat.not_lt.2 (le_trans (by decide) hb)),
      if_neg (Nat.not_lt.2 hb)]

/-- Witness for C7 at concrete inputs, discharging each size hypothesis. -/
theorem get_file_size_human_readable_spec_witness :
    get_file_size_human_readable (some 3) = Nat.repr 3 ++ " B"
      ∧ get_file_size_human_readable (some 1500) = format2 1500 1024 ++ " KB"
      ∧ get_file_size_human_readable (some (3 * 1024 * 1024))
          = format2 (3 * 1024 * 1024) (1024 * 1024) ++ " MB" :=
  ⟨get_file_size_human_readable_spec.2.1 3 (by decide),
    get_file_size_human_readable_spec.2.2.1 1500 (by decide) (by decide),
    get_file_size_human_readable_spec.2.2.2.1 (3 * 1024 * 1024) (by decide)⟩

/-- Unfolding of `scrape_content` on a present document. -/
theorem scrape_content_some (d : String) (e : String → Option String)
    (p : String → List String) (m : Nat) :
    scrape_content (some d) e p m
      = if d.data.isEmpty = true then none
        else
          match (match e d with | some c => tryText m c | none => none) with
          | some c => some c
          | none => tryText m (fallbackText (p d)) := rfl

theorem tryText_eq_some (m : Nat) (t : String) (h1 : t.data.isEmpty = false)
    (h2 : m ≤ wordCount t) : tryText m t = some t :=
  if_pos ⟨h1, h2⟩

theorem tryText_eq_none (m : Nat) (t : String)
    (h : t.data.isEmpty = true ∨ wordCount t < m) : tryText m t = none := by
  unfold tryText
  rw [if_neg]
  rintro ⟨h1, h2⟩
  rcases h with h | h
  · rw [h1] at h; exact Bool.false_ne_true h
  · exact absurd h2 (Nat.not_le.2 h)

/-- Claim C1 fails on the code at threshold 0: with a fetched document, no
structured-extraction text and no paragraph elements, the empty fallback
concatenation has word count 0 ≥ 0, so the claim dictates returning it, but the
code's truthiness test `if fallback_text` rejects the empty string and returns
`None`. -/
theorem scrape_content_claim_counterexample :
    scrape_content (some "x") (fun _ => none) (fun _ => []) 0 = none
      ∧ scrape_content_claim (some "x") (fun _ => none) (fun _ => []) 0 = some "" := by
  constructor
  · rfl
  · rfl

/-- Claim C1 amended: as the claim states, except that a returned text must in
addition be non-empty (an empty extraction result or empty paragraph concatenation
is treated as absent), and an empty fetched document counts as a fetch failure;
this matches Python's truthiness tests. The five conjuncts cover every case of
`scrape_content`. -/
theorem scrape_content_cases (extractText : String → Option String)
    (paragraphs : String → List String) (m : Nat) :
    (scrape_content none extractText paragraphs m = none)
    ∧ (∀ d : String, d.data.isEmpty = true →
        scrape_content (some d) extractText paragraphs m = none)
    ∧ (∀ d c : String, d.data.isEmpty = false → extractText d = some c →
        c.data.isEmpty = false → m ≤ wordCount c →
        scrape_content (some d) extractText paragraphs m = some c)
    ∧ (∀ d : String, d.data.isEmpty = false →
        (∀ c, extractText d = some c → c.data.isEmpty = true ∨ wordCount c < m) →
        (fallbackText (paragraphs d)).data.isEmpty = false →
        m ≤ wordCount (fallbackText (paragraphs d)) →
        scrape_content (some d) extractText paragraphs m
          = some (fallbackText (paragraphs d)))
    ∧ (∀ d : String, d.data.isEmpty = false →
        (∀ c, extractText d = some c → c.data.isEmpty = true ∨ wordCount c < m) →
        ((fallbackText (paragraphs d)).data.isEmpty = true
          ∨ wordCount (fallbackText (paragraphs d)) < m) →
        scrape_content (some d) extractText paragraphs m = none) := by
  refine ⟨rfl, ?_, ?_, ?_, ?_⟩
  · intro d hd
    rw [scrape_content_some, if_pos hd]
  · intro d c hd he hc hwc
    rw [scrape_content_some, if_neg (by rw [hd]; exact Bool.false_ne_true), he]
    dsimp only
    rw [tryText_eq_some m c hc hwc]
  · intro d hd he hf hwc
    rw [scrape_content_some, if_neg (by rw [hd]; exact Bool.false_ne_true)]
    cases hec : extractText d with
    | none => exact tryText_eq_some m _ hf hwc
    | some c =>
      dsimp only
      rw [tryText_eq_none m c (he c hec)]
      exact tryText_eq_some m _ hf hwc
  · intro d hd he hf
    rw [scrape_content_some, if_neg (by rw [hd]; exact Bool.false_ne_true)]
    cases hec : extractText d with
    | none => exact tryText_eq_none m _ hf
    | some c =>
      dsimp only
      rw [tryText_eq_none m c (he c hec)]
      exact tryText_eq_none m _ hf

/-- Witness for C1 at a concrete input: a non-empty document whose structured
extraction yields three words against a threshold of one. -/
theorem scrape_content_cases_witness :
    scrape_content (some "x") (fun _ => some "a b c") (fun _ => []) 1 = some "a b c" :=
  (scrape_content_cases (fun _ => some "a b c") (fun _ => []) 1).2.2.1 "x" "a b c"
    rfl rfl rfl (by decide)

theorem getStats_bump (f : Stats → Stats) (ds : DomainStats) (dd d : String) :
    getStats (bump f ds dd) d
      = if dd = d then f (getStats ds d) else getStats ds d := by
  induction ds with
  | nil =>
    by_cases h : dd = d
    · simp [bump, getStats, h]
    · simp [bump, getStats, h]
  | cons p ds ih =>
    by_cases h1 : p.1 = dd
    · subst h1
      by_cases h2 : p.1 = d
      · simp [bump, getStats, h2]
      · simp [bump, getStats, h2]
    · by_cases h2 : p.1 = d
      · have h3 : ¬ dd = d := fun hh => h1 (h2.trans hh.symm)
        have h4 : ¬ d = dd := fun hh => h3 hh.symm
        simp [bump, getStats, h1, h2, h3, h4]
      · simp [bump, getStats, h1, h2, ih]

theorem hasDomain_bump (f : Stats → Stats) (ds : DomainStats) (dd d : String) :
    hasDomain (bump f ds dd) d = if dd = d then true else hasDomain ds d := by
  induction ds with
  | nil =>
    by_cases h : dd = d
    · simp [bump, hasDomain, h]
    · simp [bump, hasDomain, h]
  | cons p ds ih =>
    by_cases h1 : p.1 = dd
    · subst h1
      by_cases h2 : p.1 = d
      · simp [bump, hasDomain, h2]
      · simp [bump, hasDomain, h2]
    · by_cases h2 : p.1 = d
      · have h3 : ¬ dd = d := fun hh => h1 (h2.trans hh.symm)
        have h4 : ¬ d = dd := fun hh => h3 hh.symm
        simp [bump, hasDomain, h1, h2, h3, h4]
      · simp [bump, hasDomain, h1, h2, ih]

/-- Every branch of the per-result loop updates `domain_stats` by exactly one
`+= 1`, on the failure counter or on the success counter of the result's domain. -/
theorem processResult_stats_cases (env : Env) (bl : List String) (q : String)
    (st : QueryState) (r : SearchResult) :
    (processResult env bl q st r).stats = bumpFail st.stats (env.netloc r.href)
      ∨ (processResult env bl q st r).stats = bumpSuccess st.stats (env.netloc r.href) := by
  unfold processResult
  dsimp only
  split
  · exact Or.inl rfl
  · split
    · exact Or.inl rfl
    · split
      · split
        · exact Or.inl rfl
        · exact Or.inr rfl
      · exact Or.inl rfl

/-- One processed result adds one to the attempt total of exactly its domain, and
each counter either stays or grows by one (so exactly one of the two grows). -/
theorem stats_processResult (env : Env) (bl : List String) (q : String)
    (st : QueryState) (r : SearchResult) (d : String) :
    ((getStats (processResult env bl q st r).stats d).success
        + (getStats (processResult env bl q st r).stats d).fail
      = (getStats st.stats d).success + (getStats st.stats d).fail
        + (if env.netloc r.href = d then 1 else 0))
    ∧ ((getStats (processResult env bl q st r).stats d).success
          = (getStats st.stats d).success
        ∨ (getStats (processResult env bl q st r).stats d).success
          = (getStats st.stats d).success + 1)
    ∧ ((getStats (processResult env bl q st r).stats d).fail
          = (getStats st.stats d).fail
        ∨ (getStats (processResult env bl q st r).stats d).fail
          = (getStats st.stats d).fail + 1) := by
  rcases processResult_stats_cases env bl q st r with h | h
  · rw [h]
    unfold bumpFail
    rw [getStats_bump]
    by_cases hd : env.netloc r.href = d
    · rw [if_pos hd, if_pos hd]
      exact ⟨by dsimp only; omega, Or.inl rfl, Or.inr rfl⟩
    · rw [if_neg hd, if_neg hd]
      exact ⟨by omega, Or.inl rfl, Or.inl rfl⟩
  · rw [h]
    unfold bumpSuccess
    rw [getStats_bump]
    by_cases hd : env.netloc r.href = d
    · rw [if_pos hd, if_pos hd]
      exact ⟨by dsimp only; omega, Or.inr rfl, Or.inl rfl⟩
    · rw [if_neg hd, if_neg hd]
      exact ⟨by omega, Or.inl rfl, Or.inl rfl⟩

theorem stats_fold (env : Env) (bl : List String) (q : String) (rs : List SearchResult) :
    ∀ (st : QueryState) (d : String),
      (getStats ((rs.foldl (processResult env bl q) st).stats) d).success
        + (getStats ((rs.foldl (processResult env bl q) st).stats) d).fail
      = (getStats st.stats d).success + (getStats st.stats d).fail
        + rs.countP (fun r => decide (env.netloc r.href = d)) := by
  induction rs with
  | nil => intro st d; simp
  | cons r rs ih =>
    intro st d
    rw [List.foldl_cons, ih, (stats_processResult env bl q st r d).1,
      List.countP_cons]
    by_cases hd : env.netloc r.href = d
    · rw [if_pos hd, decide_eq_true hd, if_pos rfl]
      omega
    · rw [if_neg hd, decide_eq_false hd, if_neg Bool.false_ne_true]
      omega

theorem stats_processQuery (env : Env) (bl : List String) (st : RunState)
    (q : String) (d : String) :
    (getStats (processQuery env bl st q).domainStats d).success
      + (getStats (processQuery env bl st q).domainStats d).fail
    = (getStats st.domainStats d).success + (getStats st.domainStats d).fail
      + (urlsOfQuery env q).countP (fun u => decide (env.netloc u = d)) := by
  unfold processQuery urlsOfQuery
  cases env.search q with
  | error => simp
  | results rs =>
    cases rs with
    | nil => simp
    | cons r rs2 =>
      dsimp only
      rw [stats_fold env bl q (r :: rs2) ⟨[], [], st.domainStats⟩ d,
        List.countP_map]
      rfl

theorem stats_runFold (env : Env) (bl : List String) (qs : List String) :
    ∀ (st : RunState) (d : String),
      (getStats ((qs.foldl (processQuery env bl) st).domainStats) d).success
        + (getStats ((qs.foldl (processQuery env bl) st).domainStats) d).fail
      = (getStats st.domainStats d).success + (getStats st.domainStats d).fail
        + (attemptedUrls env qs).countP (fun u => decide (env.netloc u = d)) := by
  induction qs with
  | nil => intro st d; simp [attemptedUrls]
  | cons q qs ih =>
    intro st d
    rw [List.foldl_cons, ih, stats_processQuery]
    simp only [attemptedUrls]
    rw [List.countP_append]
    omega

/-- The final write steps of `main` do not touch `domain_stats`. -/
theorem runMain_domainStats (env : Env) (bl : List String) (qs : List String) :
    (runMain env bl qs).domainStats
      = ((qs.foldl (processQuery env bl)
          { allData := [], domainStats := [], writes := [] }).domainStats) := by
  unfold runMain
  dsimp only
  split
  · rfl
  · rfl

theorem hasDomain_processResult (env : Env) (bl : List String) (q : String)
    (st : QueryState) (r : SearchResult) (d : String) :
    hasDomain (processResult env bl q st r).stats d
      = if env.netloc r.href = d then true else hasDomain st.stats d := by
  rcases processResult_stats_cases env bl q st r with h | h
  · rw [h]; unfold bumpFail; rw [hasDomain_bump]
  · rw [h]; unfold bumpSuccess; rw [hasDomain_bump]

theorem hasDomain_fold (env : Env) (bl : List String) (q : String)
    (rs : List SearchResult) :
    ∀ (st : QueryState) (d : String),
      hasDomain ((rs.foldl (processResult env bl q) st).stats) d
        = (hasDomain st.stats d || rs.any (fun r => decide (env.netloc r.href = d))) := by
  induction rs with
  | nil => intro st d; simp
  | cons r rs ih =>
    intro st d
    rw [List.foldl_cons, ih, hasDomain_processResult, List.any_cons]
    by_cases hd : env.netloc r.href = d
    · rw [if_pos hd, decide_eq_true hd]
      simp
    · rw [if_neg hd, decide_eq_false hd]
      simp

theorem any_map_comp {α β : Type} (f : α → β) (p : β → Bool) (l : List α) :
    (l.map f).any p = l.any (p ∘ f) := by
  induction l with
  | nil => rfl
  | cons a l ih => simp [List.any_cons, ih]

theorem hasDomain_processQuery (env : Env) (bl : List String) (st : RunState)
    (q : String) (d : String) :
    hasDomain (processQuery env bl st q).domainStats d
      = (hasDomain st.domainStats d
          || (urlsOfQuery env q).any (fun u => decide (env.netloc u = d))) := by
  unfold processQuery urlsOfQuery
  cases env.search q with
  | error => simp
  | results rs =>
    cases rs with
    | nil => simp
    | cons r rs2 =>
      dsimp only
      rw [hasDomain_fold env bl q (r :: rs2) ⟨[], [], st.domainStats⟩ d,
        any_map_comp]
      rfl

theorem hasDomain_runFold (env : Env) (bl : List String) (qs : List String) :
    ∀ (st : RunState) (d : String),
      hasDomain ((qs.foldl (processQuery env bl) st).domainStats) d
        = (hasDomain st.domainStats d
            || (attemptedUrls env qs).any (fun u => decide (env.netloc u = d))) := by
  induction qs with
  | nil => intro st d; simp [attemptedUrls]
  | cons q qs ih =>
    intro st d
    rw [List.foldl_cons, ih, hasDomain_processQuery]
    simp only [attemptedUrls]
    rw [List.any_append, Bool.or_assoc]

theorem any_iff_countP_pos (p : String → Bool) (l : List String) :
    l.any p = true ↔ 0 < l.countP p := by
  induction l with
  | nil => simp
  | cons a l ih =>
    by_cases h : p a = true
    · simp [List.any_cons, List.countP_cons, h]
    · simp [List.any_cons, List.countP_cons, h, ih]

/-- Claim C2: over a whole run, each domain's `successes + failures` equals the
number of URLs attempted whose resolved host is that domain; a domain has an entry
exactly when it was referenced (entries are created lazily, zeroed, by the
defaultdict); and each processed URL increments exactly one of the two counters of
exactly its own domain by one — neither counter is ever decremented. -/
theorem domain_stats_invariant (env : Env) (bl : List String)
    (queries : List String) (d : String) :
    ((getStats (runMain env bl queries).domainStats d).success
        + (getStats (runMain env bl queries).domainStats d).fail
      = (attemptedUrls env queries).countP (fun u => decide (env.netloc u = d)))
    ∧ (hasDomain (runMain env bl queries).domainStats d = true
        ↔ 0 < (attemptedUrls env queries).countP (fun u => decide (env.netloc u = d)))
    ∧ (∀ (q : String) (qs : QueryState) (r : SearchResult),
        ((getStats (processResult env bl q qs r).stats d).success
            + (getStats (processResult env bl q qs r).stats d).fail
          = (getStats qs.stats d).success + (getStats qs.stats d).fail
            + (if env.netloc r.href = d then 1 else 0))
        ∧ ((getStats (processResult env bl q qs r).stats d).success
              = (getStats qs.stats d).success
            ∨ (getStats (processResult env bl q qs r).stats d).success
              = (getStats qs.stats d).success + 1)
        ∧ ((getStats (processResult env bl q qs r).stats d).fail
              = (getStats qs.stats d).fail
            ∨ (getStats (processResult env bl q qs r).stats d).fail
              = (getStats qs.stats d).fail + 1)) := by
  refine ⟨?_, ?_, fun q qs r => stats_processResult env bl q qs r d⟩
  · rw [runMain_domainStats, stats_runFold]
    simp [getStats]
  · rw [runMain_domainStats, hasDomain_runFold]
    simp only [hasDomain, Bool.false_or]
    exact any_iff_countP_pos _ _

/-- Witness for C2: the invariant instantiated on a one-query, one-result run and
one concrete loop step. -/
theorem domain_stats_invariant_witness :
    ((getStats (runMain envA [] ["q"]).domainStats "d.com").success
        + (getStats (runMain envA [] ["q"]).domainStats "d.com").fail
      = (attemptedUrls envA ["q"]).countP (fun u => decide (envA.netloc u = "d.com")))
    ∧ ((getStats (processResult envA [] "q" ⟨[], [], []⟩ ⟨"u1", "t1"⟩).stats "d.com").success
          + (getStats (processResult envA [] "q" ⟨[], [], []⟩ ⟨"u1", "t1"⟩).stats "d.com").fail
        = (getStats (⟨[], [], []⟩ : QueryState).stats "d.com").success
          + (getStats (⟨[], [], []⟩ : QueryState).stats "d.com").fail
          + (if envA.netloc "u1" = "d.com" then 1 else 0)) :=
  ⟨(domain_stats_invariant envA [] ["q"] "d.com").1,
    ((domain_stats_invariant envA [] ["q"] "d.com").2.2 "q" ⟨[], [], []⟩ ⟨"u1", "t1"⟩).1⟩

theorem tryText_some_inv (m : Nat) (t c : String) (h : tryText m t = some c) :
    c.data.isEmpty = false ∧ m ≤ wordCount c := by
  unfold tryText at h
  split at h
  · next hcond =>
    cases h
    exact hcond
  · exact absurd h (by simp)

/-- Whatever `scrape_content` returns is non-empty and meets the word gate. -/
theorem scrape_content_some_inv (f : Option String) (e : String → Option String)
    (p : String → List String) (m : Nat) (c : String)
    (h : scrape_content f e p m = some c) :
    c.data.isEmpty = false ∧ m ≤ wordCount c := by
  cases f with
  | none => exact absurd h (by simp [scrape_content])
  | some d =>
    rw [scrape_content_some] at h
    by_cases hd : d.data.isEmpty = true
    · rw [if_pos hd] at h
      exact absurd h (by simp)
    · rw [if_neg hd] at h
      cases hec : e d with
      | some content =>
        rw [hec] at h
        dsimp only at h
        cases htt : tryText m content with
        | some c2 =>
          rw [htt] at h
          dsimp only at h
          cases h
          exact tryText_some_inv m content _ htt
        | none =>
          rw [htt] at h
          dsimp only at h
          exact tryText_some_inv m _ c h
      | none =>
        rw [hec] at h
        dsimp only at h
        exact tryText_some_inv m _ c h

/-- Exhaustive description of one per-result step: either it is one of the failure
outcomes (blacklist skip, exception, no content, empty content) and the state gains
the URL in `failed_urls` and one domain failure, or scraping succeeded and the
state gains one record and one domain success. -/
theorem processResult_cases (env : Env) (bl : List String) (q : String)
    (qs : QueryState) (r : SearchResult) :
    (processResult env bl q qs r
        = { qs with failedUrls := qs.failedUrls ++ [r.href],
                    stats := bumpFail qs.stats (env.netloc r.href) }
      ∧ (bl.contains (env.netloc r.href) = true
          ∨ env.raises r.href = true
          ∨ scrape_content (env.fetch r.href) env.extractText env.paragraphs
              env.minWords = none
          ∨ ∃ c, scrape_content (env.fetch r.href) env.extractText env.paragraphs
                env.minWords = some c ∧ c.data.isEmpty = true))
    ∨ (∃ c, scrape_content (env.fetch r.href) env.extractText env.paragraphs
            env.minWords = some c
        ∧ c.data.isEmpty = false
        ∧ bl.contains (env.netloc r.href) = false
        ∧ env.raises r.href = false
        ∧ processResult env bl q qs r
          = { qs with queryData := qs.queryData ++ [mkRecord env q r c],
                      stats := bumpSuccess qs.stats (env.netloc r.href) }) := by
  unfold processResult
  dsimp only
  split
  · next h1 => exact Or.inl ⟨rfl, Or.inl h1⟩
  · next h1 =>
    split
    · next h2 => exact Or.inl ⟨rfl, Or.inr (Or.inl h2)⟩
    · next h2 =>
      split
      · next c heq =>
        split
        · next h3 => exact Or.inl ⟨rfl, Or.inr (Or.inr (Or.inr ⟨c, heq, h3⟩))⟩
        · next h3 =>
          exact Or.inr ⟨c, heq, by simpa using h3, by simpa using h1,
            by simpa using h2, rfl⟩
      · next heq => exact Or.inl ⟨rfl, Or.inr (Or.inr (Or.inl heq))⟩

/-- Claim C3: a record is appended exactly when the URL's host is not blacklisted,
no exception interrupts the scrape, and `scrape_content` yields text (which then
meets the word-count gate); and a blacklist skip produces exactly the same state
change as a scrape failure — the URL in `failed_urls` and one failure for the
domain. -/
theorem record_iff (env : Env) (bl : List String) (q : String)
    (qs : QueryState) (r : SearchResult) :
    ((∃ rec, (processResult env bl q qs r).queryData = qs.queryData ++ [rec])
      ↔ (bl.contains (env.netloc r.href) = false ∧ env.raises r.href = false
          ∧ ∃ c, scrape_content (env.fetch r.href) env.extractText env.paragraphs
                env.minWords = some c
              ∧ env.minWords ≤ wordCount c))
    ∧ (bl.contains (env.netloc r.href) = true →
        processResult env bl q qs r
          = { qs with failedUrls := qs.failedUrls ++ [r.href],
                      stats := bumpFail qs.stats (env.netloc r.href) })
    ∧ ((env.raises r.href = true
          ∨ scrape_content (env.fetch r.href) env.extractText env.paragraphs
              env.minWords = none) →
        bl.contains (env.netloc r.href) = false →
        processResult env bl q qs r
          = { qs with failedUrls := qs.failedUrls ++ [r.href],
                      stats := bumpFail qs.stats (env.netloc r.href) }) := by
  have hcases := processResult_cases env bl q qs r
  refine ⟨⟨?_, ?_⟩, ?_, ?_⟩
  · rintro ⟨rec, hrec⟩
    rcases hcases with ⟨heq, _⟩ | ⟨c, hsc, hce, hbl, hra, heq⟩
    · rw [heq] at hrec
      have := congrArg List.length hrec
      simp at this
    · exact ⟨hbl, hra, c, hsc, (scrape_content_some_inv _ _ _ _ _ hsc).2⟩
  · rintro ⟨hbl, hra, c, hsc, hwc⟩
    rcases hcases with ⟨heq, hfail⟩ | ⟨c2, hsc2, hce2, _, _, heq⟩
    · exfalso
      rcases hfail with h | h | h | ⟨c2, hsc2, hce2⟩
      · rw [hbl] at h; exact Bool.false_ne_true h
      · rw [hra] at h; exact Bool.false_ne_true h
      · rw [hsc] at h; exact Option.noConfusion h
      · rw [hsc] at hsc2
        cases hsc2
        rw [(scrape_content_some_inv _ _ _ _ _ hsc).1] at hce2
        exact Bool.false_ne_true hce2
    · exact ⟨mkRecord env q r c2, by rw [heq]⟩
  · intro hbl
    rcases hcases with ⟨heq, _⟩ | ⟨c, _, _, hbl2, _, _⟩
    · exact heq
    · rw [hbl] at hbl2
      exact absurd hbl2 (by simp)
  · intro hor hbl
    rcases hcases with ⟨heq, _⟩ | ⟨c, hsc, _, _, hra2, _⟩
    · exact heq
    · exfalso
      rcases hor with h | h
      · rw [h] at hra2; exact absurd hra2 (by simp)
      · rw [h] at hsc; exact Option.noConfusion hsc

/-- Witness for C3: a blacklisted host is skipped and booked as one failure. -/
theorem record_iff_witness :
    processResult envA ["d.com"] "q" ⟨[], [], []⟩ ⟨"u1", "t1"⟩
      = { queryData := [], failedUrls := ["u1"], stats := bumpFail [] "d.com" } :=
  (record_iff envA ["d.com"] "q" ⟨[], [], []⟩ ⟨"u1", "t1"⟩).2.1 (by decide)

theorem processResult_snippet (env : Env) (bl : List String) (q : String)
    (qs : QueryState) (r : SearchResult) (rec : ScrapedRecord)
    (h : rec ∈ (processResult env bl q qs r).queryData) :
    rec ∈ qs.queryData
      ∨ rec.snippet
          = String.mk ((pyStrip (rec.content.data.take 300)).map nlToSpace) ++ "..." := by
  rcases processResult_cases env bl q qs r with ⟨heq, _⟩ | ⟨c, _, _, _, _, heq⟩
  · rw [heq] at h
    exact Or.inl h
  · rw [heq] at h
    rcases List.mem_append.1 h with h2 | h2
    · exact Or.inl h2
    · have h3 : rec = mkRecord env q r c := by simpa using h2
      exact Or.inr (by rw [h3]; rfl)

theorem fold_snippet (env : Env) (bl : List String) (q : String)
    (rs : List SearchResult) :
    ∀ (qs : QueryState) (rec : ScrapedRecord),
      rec ∈ ((rs.foldl (processResult env bl q) qs).queryData) →
      rec ∈ qs.queryData
        ∨ rec.snippet
            = String.mk ((pyStrip (rec.content.data.take 300)).map nlToSpace) ++ "..." := by
  induction rs with
  | nil => intro qs rec h; exact Or.inl h
  | cons r rs ih =>
    intro qs rec h
    rw [List.foldl_cons] at h
    rcases ih _ rec h with h2 | h2
    · exact processResult_snippet env bl q qs r rec h2
    · exact Or.inr h2

theorem processQuery_snippet (env : Env) (bl : List String) (st : RunState)
    (q : String) (rec : ScrapedRecord)
    (h : rec ∈ (processQuery env bl st q).allData) :
    rec ∈ st.allData
      ∨ rec.snippet
          = String.mk ((pyStrip (rec.content.data.take 300)).map nlToSpace) ++ "..." := by
  unfold processQuery at h
  split at h
  · exact Or.inl h
  · exact Or.inl h
  · dsimp only at h
    rcases List.mem_append.1 h with h2 | h2
    · exact Or.inl h2
    · rcases fold_snippet env bl q _ ⟨[], [], st.domainStats⟩ rec h2 with h3 | h3
      · exact absurd h3 (List.not_mem_nil rec)
      · exact Or.inr h3

theorem runFold_snippet (env : Env) (bl : List String) (qs : List String) :
    ∀ (st : RunState) (rec : ScrapedRecord),
      rec ∈ ((qs.foldl (processQuery env bl) st).allData) →
      rec ∈ st.allData
        ∨ rec.snippet
            = String.mk ((pyStrip (rec.content.data.take 300)).map nlToSpace) ++ "..." := by
  induction qs with
  | nil => intro st rec h; exact Or.inl h
  | cons q qs ih =>
    intro st rec h
    rw [List.foldl_cons] at h
    rcases ih _ rec h with h2 | h2
    · exact processQuery_snippet env bl st q rec h2
    · exact Or.inr h2

/-- The final write steps of `main` do not touch `all_data`. -/
theorem runMain_allData (env : Env) (bl : List String) (qs : List String) :
    (runMain env bl qs).allData
      = ((qs.foldl (processQuery env bl)
          { allData := [], domainStats := [], writes := [] }).allData) := by
  unfold runMain
  dsimp only
  split
  · rfl
  · rfl

/-- Claim C4 amended: the snippet of every record of a run is the first 300
characters of its content, stripped of leading and trailing whitespace, with the
remaining newlines replaced by spaces and `"..."` appended unconditionally — the
claim as stated omits the `strip` step. -/
theorem snippet_spec (env : Env) (bl : List String) (queries : List String)
    (rec : ScrapedRecord) (h : rec ∈ (runMain env bl queries).allData) :
    rec.snippet
      = String.mk ((pyStrip (rec.content.data.take 300)).map nlToSpace) ++ "..." := by
  rw [runMain_allData] at h
  rcases runFold_snippet env bl queries _ rec h with h2 | h2
  · exact absurd h2 (List.not_mem_nil rec)
  · exact h2

/-- Claim C4 fails on the code: a run whose scraped content is `" hello"` yields a
record with snippet `"hello..."` (the code strips the leading space), while the
claim's formula (first 300 characters, newlines to spaces, `"..."` appended)
prescribes `" hello..."`. -/
theorem snippet_claim_counterexample :
    ((runMain envB [] ["q"]).allData.map (fun rec => (rec.snippet, rec.content))
        = [("hello...", " hello")])
      ∧ snippetClaim " hello" = " hello..."
      ∧ ("hello..." : String) ≠ " hello..." := by
  refine ⟨by decide, by decide, by decide⟩

/-- Witness for C4 on the record produced by a concrete run. -/
theorem snippet_spec_witness :
    ({ topic := "q", title := "t1", url := "u1", domain := "d.com",
        snippet := "hello...", content := " hello", scraped_at := "T",
        entities := [], keywords := [] } : ScrapedRecord).snippet
      = String.mk ((pyStrip ((" hello" : String).data.take 300)).map nlToSpace) ++ "..." :=
  snippet_spec envB [] ["q"]
    ⟨"q", "t1", "u1", "d.com", "hello...", " hello", "T", [], []⟩ (by decide)

theorem processQuery_skip (env : Env) (bl : List String) (st : RunState) (q : String)
    (h : env.search q = .error ∨ env.search q = .results []) :
    processQuery env bl st q = st := by
  rcases h with h | h <;> unfold processQuery <;> rw [h]

/-- The last write of every run is the domain summary. -/
theorem writes_getLast (env : Env) (bl : List String) (qs : List String) :
    (runMain env bl qs).writes.getLast?
      = some (.domainSummary (summaryRows (runMain env bl qs).domainStats)) := by
  unfold runMain
  dsimp only
  rw [List.getLast?_concat]

/-- Claim C9: a query whose search step raises or returns no results changes
nothing — the run with it equals the run without it (no records, no failure-log
entries, no domain-statistics changes, all remaining queries still processed) —
and the domain-summary write is still the run's final write. -/
theorem query_failure_nonfatal (env : Env) (bl : List String)
    (qs1 : List String) (q : String) (qs2 : List String)
    (h : env.search q = .error ∨ env.search q = .results []) :
    runMain env bl (qs1 ++ q :: qs2) = runMain env bl (qs1 ++ qs2)
      ∧ (runMain env bl (qs1 ++ q :: qs2)).writes.getLast?
          = some (.domainSummary
              (summaryRows (runMain env bl (qs1 ++ q :: qs2)).domainStats)) := by
  refine ⟨?_, writes_getLast env bl _⟩
  have hfold : (qs1 ++ q :: qs2).foldl (processQuery env bl)
        ({ allData := [], domainStats := [], writes := [] } : RunState)
      = (qs1 ++ qs2).foldl (processQuery env bl)
          ({ allData := [], domainStats := [], writes := [] } : RunState) := by
    rw [List.foldl_append, List.foldl_append, List.foldl_cons,
      processQuery_skip env bl _ q h]
  unfold runMain
  rw [hfold]

/-- Witness for C9: a run whose single query errors equals the empty run. -/
theorem query_failure_nonfatal_witness :
    runMain envD [] ["a"] = runMain envD [] []
      ∧ (runMain envD [] ["a"]).writes.getLast?
          = some (.domainSummary (summaryRows (runMain envD [] ["a"]).domainStats)) :=
  query_failure_nonfatal envD [] [] "a" [] (Or.inl rfl)

theorem keys_bump (f : Stats → Stats) (ds : DomainStats) (dd : String) :
    (bump f ds dd).map Prod.fst
      = if hasDomain ds dd = true then ds.map Prod.fst
        else ds.map Prod.fst ++ [dd] := by
  induction ds with
  | nil => simp [bump, hasDomain]
  | cons p ds ih =>
    by_cases h1 : p.1 = dd
    · simp [bump, hasDomain, h1]
    · simp only [bump, hasDomain, if_neg h1, List.map_cons, ih]
      split <;> rfl

theorem hasDomain_iff_mem_keys (ds : DomainStats) (d : String) :
    hasDomain ds d = true ↔ d ∈ ds.map Prod.fst := by
  induction ds with
  | nil => simp [hasDomain]
  | cons p ds ih =>
    by_cases h : p.1 = d
    · simp [hasDomain, h]
    · simp [hasDomain, h, ih, Ne.symm h]

theorem nodup_keys_bump (f : Stats → Stats) (ds : DomainStats) (dd : String)
    (h : (ds.map Prod.fst).Nodup) : ((bump f ds dd).map Prod.fst).Nodup := by
  rw [keys_bump]
  split
  · exact h
  · next hnot =>
    have hdd : dd ∉ ds.map Prod.fst := fun hm =>
      hnot ((hasDomain_iff_mem_keys ds dd).2 hm)
    refine List.Nodup.append h (List.nodup_singleton dd) ?_
    intro x hx hmem
    rw [List.mem_singleton.1 hmem] at hx
    exact hdd hx

theorem nodup_keys_processResult (env : Env) (bl : List String) (q : String)
    (st : QueryState) (r : SearchResult)
    (h : (st.stats.map Prod.fst).Nodup) :
    (((processResult env bl q st r).stats).map Prod.fst).Nodup := by
  rcases processResult_stats_cases env bl q st r with h2 | h2 <;>
    rw [h2] <;>
    exact nodup_keys_bump _ _ _ h

theorem nodup_keys_fold (env : Env) (bl : List String) (q : String)
    (rs : List SearchResult) :
    ∀ (st : QueryState), (st.stats.map Prod.fst).Nodup →
      (((rs.foldl (processResult env bl q) st).stats).map Prod.fst).Nodup := by
  induction rs with
  | nil => intro st h; exact h
  | cons r rs ih =>
    intro st h
    rw [List.foldl_cons]
    exact ih _ (nodup_keys_processResult env bl q st r h)

theorem nodup_keys_processQuery (env : Env) (bl : List String) (st : RunState)
    (q : String) (h : (st.domainStats.map Prod.fst).Nodup) :
    (((processQuery env bl st q).domainStats).map Prod.fst).Nodup := by
  unfold processQuery
  split
  · exact h
  · exact h
  · dsimp only
    exact nodup_keys_fold env bl q _ ⟨[], [], st.domainStats⟩ h

theorem nodup_keys_runFold (env : Env) (bl : List String) (qs : List String) :
    ∀ (st : RunState), (st.domainStats.map Prod.fst).Nodup →
      (((qs.foldl (processQuery env bl) st).domainStats).map Prod.fst).Nodup := by
  induction qs with
  | nil => intro st h; exact h
  | cons q qs ih =>
    intro st h
    rw [List.foldl_cons]
    exact ih _ (nodup_keys_processQuery env bl st q h)

/-- No domain ever gets two entries in `domain_stats`. -/
theorem nodup_keys_runMain (env : Env) (bl : List String) (qs : List String) :
    (((runMain env bl qs).domainStats).map Prod.fst).Nodup := by
  rw [runMain_domainStats]
  exact nodup_keys_runFold env bl qs ⟨[], [], []⟩ (by simp)

theorem summary_le_trans : ∀ (a b c : String × Stats),
    decide (b.2.success ≤ a.2.success) = true →
    decide (c.2.success ≤ b.2.success) = true →
    decide (c.2.success ≤ a.2.success) = true := by
  intro a b c h1 h2
  simp only [decide_eq_true_eq] at h1 h2 ⊢
  omega

theorem summary_le_total : ∀ (a b : String × Stats),
    (decide (b.2.success ≤ a.2.success) || decide (a.2.success ≤ b.2.success)) = true := by
  intro a b
  rcases Nat.le_total b.2.success a.2.success with h | h <;> simp [h]

/-- Claim C8: the domain summary has one row per domain of the run (no domain is
repeated), its rows are sorted by successes descending, and a tie between two
domains keeps their first-encounter order (the sort is stable). -/
theorem domain_summary_spec (env : Env) (bl : List String) (queries : List String)
    (a b : String × Stats)
    (hsub : [a, b].Sublist (runMain env bl queries).domainStats)
    (htie : a.2.success = b.2.success) :
    ((summaryRows (runMain env bl queries).domainStats).map
        (fun row => row.domain)).Nodup
    ∧ (summaryRows (runMain env bl queries).domainStats).Pairwise
        (fun x y => y.successes ≤ x.successes)
    ∧ ([⟨a.1, a.2.success, a.2.fail⟩, ⟨b.1, b.2.success, b.2.fail⟩].Sublist
        (summaryRows (runMain env bl queries).domainStats)) := by
  have hnodup := nodup_keys_runMain env bl queries
  refine ⟨?_, ?_, ?_⟩
  · unfold summaryRows
    rw [List.map_map]
    show (((runMain env bl queries).domainStats.mergeSort
        (fun a b => decide (b.2.success ≤ a.2.success))).map Prod.fst).Nodup
    have hperm := (List.mergeSort_perm (runMain env bl queries).domainStats
        (fun a b => decide (b.2.success ≤ a.2.success))).map Prod.fst
    exact (List.Perm.nodup_iff hperm).mpr hnodup
  · unfold summaryRows
    have hsorted := List.sorted_mergeSort summary_le_trans summary_le_total
        (runMain env bl queries).domainStats
    exact List.Pairwise.map _
      (fun x y h => by simpa [decide_eq_true_eq] using h) hsorted
  · unfold summaryRows
    have hle : decide (b.2.success ≤ a.2.success) = true :=
      decide_eq_true (le_of_eq htie.symm)
    have h2 := List.pair_sublist_mergeSort summary_le_trans summary_le_total hle hsub
    exact h2.map (fun p : String × Stats =>
      ({ domain := p.1, successes := p.2.success, failures := p.2.fail } : SummaryRow))

/-- Witness for C8: a run with two tied domains (both all failures), instantiated
at the two tied entries in encounter order. -/
theorem domain_summary_spec_witness :
    (((summaryRows (runMain envC [] ["q"]).domainStats).map
        (fun row => row.domain)).Nodup)
    ∧ ((summaryRows (runMain envC [] ["q"]).domainStats).Pairwise
        (fun x y => y.successes ≤ x.successes))
    ∧ ([⟨"u1", 0, 1⟩, ⟨"u2", 0, 1⟩].Sublist
        (summaryRows (runMain envC [] ["q"]).domainStats)) :=
  domain_summary_spec envC [] ["q"] ("u1", ⟨0, 1⟩) ("u2", ⟨0, 1⟩)
    (List.Sublist.refl _) rfl

end Theorems

end BusinessCrawler
